import Mathlib

/-!
Verification of the x9 message-passing library (src/x9.c).

The engine is shallowly embedded: machine integers become `Nat` with explicit
`% 2^64` where the C code wraps, slot arrays become `List x9_slot`, pointers
that may be NULL become `Option`, and each public operation becomes a pure
function from inbox state to inbox state.  Allocation outcomes, which in C
are decided by `aligned_alloc`/`calloc`, are passed in as explicit booleans.
-/

namespace X9

/-- `2^64`, the modulus of the C `uint64_t` arithmetic. -/
def U64 : Nat := 2 ^ 64

/-- The reciprocal constant stored by `x9_create_inbox` (x9.c line 133):
`UINT64_C(0xFFFFFFFFFFFFFFFF) / sz + 1`, i.e. `(2^64 - 1) / sz + 1`. -/
def x9_constant (sz : Nat) : Nat := (U64 - 1) / sz + 1

/-- The fast-modulo index computation shared by `x9_load_idx` and
`x9_increment_idx` (x9.c lines 87-107): `low_bits = k * c` in wrapping
64-bit arithmetic, then the high 64 bits of the 128-bit product
`low_bits * sz`. -/
def x9_fastmod (k sz c : Nat) : Nat := ((k * c) % U64) * sz / U64

/-- Slot header (x9.c lines 61-66): three atomic boolean flags.
`slot_has_data` is the spec's `occupied`, `msg_written` is `ready`,
`shared` is `shared_locked`. -/
structure x9_msg_header where
  slot_has_data : Bool
  msg_written : Bool
  shared : Bool
deriving DecidableEq, Repr

/-- One ring slot: the header plus the `msg_sz`-byte inline payload that
follows it in the C layout. -/
structure x9_slot where
  header : x9_msg_header
  payload : List Nat
deriving DecidableEq, Repr

/-- The inbox (x9.c lines 68-77).  `read_idx` is the consumer counter Q,
`write_idx` the producer counter P.  The C counters are `uint64_t` and wrap
modulo `2^64` on `fetch_add`; they are modelled as unbounded `Nat`, which is
observationally equivalent because the only use of a counter is through
`x9_fastmod`, and `x9_fastmod k sz (c % U64) = x9_fastmod k sz c`
(theorem `x9_fastmod_mod_invariant`). -/
structure x9_inbox where
  read_idx : Nat
  write_idx : Nat
  sz : Nat
  msg_sz : Nat
  constant : Nat
  msgs : List x9_slot
  name : List Nat
deriving DecidableEq, Repr

/-- `x9_load_idx` (x9.c lines 87-95): read one of the two counters and map
it to a slot index with the fast modulo. -/
def x9_load_idx (ibx : x9_inbox) (read_idx : Bool) : Nat :=
  x9_fastmod ibx.constant ibx.sz (if read_idx then ibx.read_idx else ibx.write_idx)

/-- A zeroed slot, as produced by the `calloc` of the slot array. -/
def x9_empty_slot (msg_sz : Nat) : x9_slot :=
  { header := { slot_has_data := false, msg_written := false, shared := false },
    payload := List.replicate msg_sz 0 }

/-- The inbox value built by a fully successful `x9_create_inbox sz name msg_sz`
(x9.c lines 116-138). -/
def x9_fresh_inbox (sz : Nat) (name : List Nat) (msg_sz : Nat) : x9_inbox :=
  { read_idx := 0, write_idx := 0, sz := sz, msg_sz := msg_sz,
    constant := x9_constant sz,
    msgs := List.replicate sz (x9_empty_slot msg_sz),
    name := name }

/-- `x9_create_inbox` (x9.c lines 116-166).  The three allocation sites
(`aligned_alloc` for the inbox, `calloc` for the name, `calloc` for the slot
array) are modelled by the booleans `a1 a2 a3`; `none` models the NULL
return.  The only validation performed is `(sz > 0) && !(sz % 2)`; the name
is copied but never inspected. -/
def x9_create_inbox (sz : Nat) (name : List Nat) (msg_sz : Nat)
    (a1 a2 a3 : Bool) : Option x9_inbox :=
  if ¬(0 < sz ∧ sz % 2 = 0) then none
  else if a1 = false then none
  else if a2 = false then none
  else if a3 = false then none
  else some (x9_fresh_inbox sz name msg_sz)

/-- `x9_inbox_is_valid` (x9.c lines 168-170): a pure NULL check. -/
def x9_inbox_is_valid (ibx : Option x9_inbox) : Bool := ibx.isSome

/-- `x9_write_to_inbox` (x9.c lines 296-312): compute the slot from the
producer counter, try to CAS `slot_has_data` from false to true; on success
copy `msg_sz` bytes into the payload, bump `write_idx`, set `msg_written`;
on failure return false with no state change. -/
def x9_write_to_inbox (ibx : x9_inbox) (msg_sz : Nat) (msg : List Nat) :
    Bool × x9_inbox :=
  let idx := x9_load_idx ibx false
  match ibx.msgs[idx]? with
  | none => (false, ibx)
  | some slot =>
    if slot.header.slot_has_data = false then
      (true,
        { ibx with
          write_idx := ibx.write_idx + 1,
          msgs := ibx.msgs.set idx
            { header := { slot.header with slot_has_data := true, msg_written := true },
              payload := msg.take msg_sz ++ slot.payload.drop msg_sz } })
    else (false, ibx)

/-- One call of `x9_write_to_inbox_spin` (x9.c lines 314-329), with explicit
fuel bounding the number of loop iterations.  Note that in the C source the
`x9_increment_idx` fetch-add sits INSIDE the `for (;;)` loop: every
iteration draws a fresh ticket from `write_idx` (incrementing it) and
targets the slot of that ticket.  On success the call returns the new state
together with the number of iterations used; `none` means the fuel ran out
while the loop was still spinning. -/
def x9_write_to_inbox_spin (fuel : Nat) (ibx : x9_inbox) (msg_sz : Nat)
    (msg : List Nat) : Option (x9_inbox × Nat) :=
  match fuel with
  | 0 => none
  | fuel + 1 =>
    let idx := x9_load_idx ibx false
    let ibx1 := { ibx with write_idx := ibx.write_idx + 1 }
    match ibx1.msgs[idx]? with
    | none => none
    | some slot =>
      if slot.header.slot_has_data = false then
        some
          ({ ibx1 with
             msgs := ibx1.msgs.set idx
               { header := { slot.header with slot_has_data := true, msg_written := true },
                 payload := msg.take msg_sz ++ slot.payload.drop msg_sz } }, 1)
      else
        match x9_write_to_inbox_spin fuel ibx1 msg_sz msg with
        | none => none
        | some (ibx2, n) => some (ibx2, n + 1)

/-- `x9_read_from_inbox` (x9.c lines 339-355): compute the slot from the
consumer counter; if `slot_has_data` and `msg_written`, copy `msg_sz` bytes
into the caller buffer, clear both flags, bump `read_idx`; otherwise return
false touching nothing. -/
def x9_read_from_inbox (ibx : x9_inbox) (msg_sz : Nat) (out : List Nat) :
    Bool × x9_inbox × List Nat :=
  let idx := x9_load_idx ibx true
  match ibx.msgs[idx]? with
  | none => (false, ibx, out)
  | some slot =>
    if slot.header.slot_has_data then
      if slot.header.msg_written then
        (true,
          { ibx with
            read_idx := ibx.read_idx + 1,
            msgs := ibx.msgs.set idx
              { slot with
                header := { slot.header with slot_has_data := false, msg_written := false } } },
          slot.payload.take msg_sz ++ out.drop msg_sz)
      else (false, ibx, out)
    else (false, ibx, out)

/-- `x9_read_from_shared_inbox` (x9.c lines 376-398): CAS the `shared`
mutex flag from false to true; if that fails return false touching nothing.
Inside the lock, check `slot_has_data` and `msg_written`; on success copy
out, bump `read_idx`, clear all three flags; if the slot is not consumable,
store `shared = false` back and return false. -/
def x9_read_from_shared_inbox (ibx : x9_inbox) (msg_sz : Nat) (out : List Nat) :
    Bool × x9_inbox × List Nat :=
  let idx := x9_load_idx ibx true
  match ibx.msgs[idx]? with
  | none => (false, ibx, out)
  | some slot =>
    if slot.header.shared = false then
      if slot.header.slot_has_data then
        if slot.header.msg_written then
          (true,
            { ibx with
              read_idx := ibx.read_idx + 1,
              msgs := ibx.msgs.set idx
                { slot with
                  header := { slot_has_data := false, msg_written := false, shared := false } } },
            slot.payload.take msg_sz ++ out.drop msg_sz)
        else
          (false,
            { ibx with
              msgs := ibx.msgs.set idx
                { slot with header := { slot.header with shared := false } } },
            out)
      else
        (false,
          { ibx with
            msgs := ibx.msgs.set idx
              { slot with header := { slot.header with shared := false } } },
          out)
    else (false, ibx, out)

/-- A node (x9.c lines 79-83).  Inbox references are modelled as pointers:
`Option Nat`, where `none` is NULL and equal numbers are equal pointers. -/
structure x9_node where
  inboxes : List (Option Nat)
  n_inboxes : Nat
  name : List Nat
deriving DecidableEq, Repr

/-- The duplicate scan of `x9_create_node` (x9.c lines 216-229): each
argument is compared, by pointer equality, with every earlier argument. -/
def x9_has_dup : List (Option Nat) → Bool
  | [] => false
  | x :: rest => rest.contains x || x9_has_dup rest

/-- `x9_create_node` (x9.c lines 194-271).  The three allocation sites
(node, name, inbox table) are the booleans `a1 a2 a3`.  The only
validations are `n_inboxes > 0` and the pairwise pointer-equality scan;
NULL or otherwise invalid inboxes are stored without any check. -/
def x9_create_node (name : List Nat) (inboxes : List (Option Nat))
    (a1 a2 a3 : Bool) : Option x9_node :=
  if inboxes.length = 0 then none
  else if a1 = false then none
  else if a2 = false then none
  else if a3 = false then none
  else if x9_has_dup inboxes then none
  else some { inboxes := inboxes, n_inboxes := inboxes.length, name := name }

/-- `x9_node_is_valid` (x9.c line 273): a pure NULL check. -/
def x9_node_is_valid (nd : Option x9_node) : Bool := nd.isSome

/-- A sequence of `x9_write_to_inbox` calls, returning the list of their
boolean results together with the final state. -/
def x9_run_writes (ibx : x9_inbox) (msg_sz : Nat) :
    List (List Nat) → List Bool × x9_inbox
  | [] => ([], ibx)
  | m :: ms =>
    let r := x9_write_to_inbox ibx msg_sz m
    let rest := x9_run_writes r.2 msg_sz ms
    (r.1 :: rest.1, rest.2)

/-- `n` successive `x9_read_from_inbox` calls, each into a fresh zeroed
`msg_sz`-byte buffer, returning each call's (result, buffer) pair and the
final state. -/
def x9_run_reads (ibx : x9_inbox) (msg_sz : Nat) :
    Nat → List (Bool × List Nat) × x9_inbox
  | 0 => ([], ibx)
  | n + 1 =>
    let r := x9_read_from_inbox ibx msg_sz (List.replicate msg_sz 0)
    let rest := x9_run_reads r.2.1 msg_sz n
    ((r.1, r.2.2) :: rest.1, rest.2)

/-- Number of slots whose `occupied` flag is set. -/
def x9_occupied_count (ibx : x9_inbox) : Nat :=
  (ibx.msgs.filter (fun s => s.header.slot_has_data)).length

end X9

namespace X9

/-! ### Helper lemmas -/

/-- Setting a list position to the value it already holds is the identity. -/
theorem list_set_self {α : Type} (l : List α) (i : Nat) (a : α)
    (h : l[i]? = some a) : l.set i a = l := by
  apply List.ext_getElem?
  intro n
  by_cases hn : i = n
  · subst hn
    obtain ⟨hlt, _⟩ := List.getElem?_eq_some.mp h
    rw [List.getElem?_set_eq_of_lt a hlt, h]
  · exact List.getElem?_set_ne hn

/-- The counters may be taken modulo `2^64` (as the C `uint64_t` counters
are) without changing any slot index: the fast modulo only depends on the
counter modulo `2^64`. -/
theorem x9_fastmod_mod_invariant (k sz c : Nat) :
    x9_fastmod k sz (c % U64) = x9_fastmod k sz c := by
  unfold x9_fastmod
  rw [Nat.mul_mod k (c % U64), Nat.mod_mod_of_dvd _ (dvd_refl U64), ← Nat.mul_mod]

end X9

namespace X9

/-- C6: when the non-blocking single-producer write fails its CAS it returns
not-written with no side effects: the whole inbox state (producer counter,
flags, payloads) is unchanged, so the next call targets the same slot. -/
theorem x9_write_to_inbox_fail_frame (ibx : x9_inbox) (msg_sz : Nat) (msg : List Nat)
    (h : (x9_write_to_inbox ibx msg_sz msg).1 = false) :
    (x9_write_to_inbox ibx msg_sz msg).2 = ibx ∧
    x9_load_idx (x9_write_to_inbox ibx msg_sz msg).2 false = x9_load_idx ibx false := by
  have h2 : (x9_write_to_inbox ibx msg_sz msg).2 = ibx := by
    unfold x9_write_to_inbox at h ⊢
    rcases hm : ibx.msgs[x9_load_idx ibx false]? with _ | slot
    · simp [hm]
    · simp only [hm] at h ⊢
      by_cases hd : slot.header.slot_has_data = false
      · simp [hd] at h
      · simp [hd]
  exact ⟨h2, by rw [h2]⟩

/-- Witness for C6 at a concrete input: a full slot makes the write fail and
leave the inbox untouched. -/
theorem x9_write_to_inbox_fail_frame_witness :
    (x9_write_to_inbox
        { read_idx := 0, write_idx := 0, sz := 2, msg_sz := 1,
          constant := x9_constant 2,
          msgs := [{ header := { slot_has_data := true, msg_written := true, shared := false },
                     payload := [5] }, x9_empty_slot 1],
          name := [] } 1 [7]).2 =
      { read_idx := 0, write_idx := 0, sz := 2, msg_sz := 1,
        constant := x9_constant 2,
        msgs := [{ header := { slot_has_data := true, msg_written := true, shared := false },
                   payload := [5] }, x9_empty_slot 1],
        name := [] } :=
  (x9_write_to_inbox_fail_frame _ 1 [7] (by decide)).1

end X9

namespace X9

/-- C10: a non-blocking read that returns not-read leaves the caller's
output buffer completely unmodified, for both `x9_read_from_inbox` and
`x9_read_from_shared_inbox`; bytes are copied only on the path returning
true. -/
theorem x9_read_fail_buffer_unchanged (ibx : x9_inbox) (msg_sz : Nat) (out : List Nat) :
    ((x9_read_from_inbox ibx msg_sz out).1 = false →
      (x9_read_from_inbox ibx msg_sz out).2.2 = out) ∧
    ((x9_read_from_shared_inbox ibx msg_sz out).1 = false →
      (x9_read_from_shared_inbox ibx msg_sz out).2.2 = out) := by
  constructor
  · intro h
    unfold x9_read_from_inbox at h ⊢
    rcases hm : ibx.msgs[x9_load_idx ibx true]? with _ | slot
    · simp [hm]
    · simp only [hm] at h ⊢
      by_cases hd : slot.header.slot_has_data
      · by_cases hw : slot.header.msg_written
        · simp [hd, hw] at h
        · simp [hd, hw]
      · simp [hd]
  · intro h
    unfold x9_read_from_shared_inbox at h ⊢
    rcases hm : ibx.msgs[x9_load_idx ibx true]? with _ | slot
    · simp [hm]
    · simp only [hm] at h ⊢
      by_cases hs : slot.header.shared = false
      · by_cases hd : slot.header.slot_has_data
        · by_cases hw : slot.header.msg_written
          · simp [hs, hd, hw] at h
          · simp [hs, hd, hw]
        · simp [hs, hd]
      · simp [hs]

/-- Witness for C10: reading from a fresh (empty) inbox fails and leaves a
concrete buffer as it was. -/
theorem x9_read_fail_buffer_unchanged_witness :
    (x9_read_from_inbox (x9_fresh_inbox 2 [] 1) 1 [42]).2.2 = [42] ∧
    (x9_read_from_shared_inbox (x9_fresh_inbox 2 [] 1) 1 [42]).2.2 = [42] :=
  ⟨(x9_read_fail_buffer_unchanged (x9_fresh_inbox 2 [] 1) 1 [42]).1 (by decide),
   (x9_read_fail_buffer_unchanged (x9_fresh_inbox 2 [] 1) 1 [42]).2 (by decide)⟩

/-- Writing back `shared = false` into a slot whose `shared` flag was
already false leaves the slot array unchanged. -/
theorem x9_set_shared_false_self (l : List x9_slot) (i : Nat) (slot : x9_slot)
    (hm : l[i]? = some slot) (hs : slot.header.shared = false) :
    l.set i { slot with header := { slot.header with shared := false } } = l := by
  have hself : ({ slot with header := { slot.header with shared := false } } : x9_slot) = slot := by
    obtain ⟨⟨d, w, sh⟩, pl⟩ := slot
    simp only at hs
    subst hs
    rfl
  rw [hself]
  exact list_set_self _ _ _ hm

/-- C7 (amended): whenever the shared-consumer read returns not-read, the
entire inbox state is unchanged — in particular the consumer counter Q and
the occupied/ready flags; `shared_locked` is restored to false when the CAS
had succeeded (it was false before and is false after), but is left set when
the CAS failed because a contending consumer still holds it.  Q advances
only on a successful read. -/
theorem x9_read_from_shared_inbox_fail_frame (ibx : x9_inbox) (msg_sz : Nat)
    (out : List Nat)
    (h : (x9_read_from_shared_inbox ibx msg_sz out).1 = false) :
    (x9_read_from_shared_inbox ibx msg_sz out).2.1 = ibx ∧
    (x9_read_from_shared_inbox ibx msg_sz out).2.2 = out := by
  have h2 : (x9_read_from_shared_inbox ibx msg_sz out).2.1 = ibx := by
    unfold x9_read_from_shared_inbox at h ⊢
    rcases hm : ibx.msgs[x9_load_idx ibx true]? with _ | slot
    · simp [hm]
    · simp only [hm] at h ⊢
      obtain ⟨⟨d, w, sh⟩, pl⟩ := slot
      cases d <;> cases w <;> cases sh <;>
        simp_all [list_set_self _ _ _ hm]
  refine ⟨h2, (x9_read_fail_buffer_unchanged ibx msg_sz out).2 h⟩

end X9

namespace X9

/-- A concrete inbox whose current read slot is occupied, ready, and locked
by a contending shared consumer (`shared = true`). -/
def x9_locked_sample : x9_inbox :=
  { read_idx := 0, write_idx := 1, sz := 2, msg_sz := 1,
    constant := x9_constant 2,
    msgs := [{ header := { slot_has_data := true, msg_written := true, shared := true },
               payload := [5] }, x9_empty_slot 1],
    name := [] }

/-- Witness for C7 (amended) at a concrete input: reading a fresh (empty)
inbox returns not-read and changes nothing. -/
theorem x9_read_from_shared_inbox_fail_frame_witness :
    (x9_read_from_shared_inbox (x9_fresh_inbox 2 [] 1) 1 [42]).2.1 = x9_fresh_inbox 2 [] 1 ∧
    (x9_read_from_shared_inbox (x9_fresh_inbox 2 [] 1) 1 [42]).2.2 = [42] :=
  x9_read_from_shared_inbox_fail_frame (x9_fresh_inbox 2 [] 1) 1 [42] (by decide)

/-- Counterexample to C7 as stated: when the `shared_locked` CAS fails
(the flag is already held by a contending consumer), the call returns
not-read but `shared_locked` is still true on return, not false. -/
theorem x9_read_from_shared_inbox_locked_counterexample :
    (x9_read_from_shared_inbox x9_locked_sample 1 [0]).1 = false ∧
    ¬ (((x9_read_from_shared_inbox x9_locked_sample 1 [0]).2.1.msgs[x9_load_idx
          x9_locked_sample true]?).map (fun s => s.header.shared) = some false) := by
  decide

/-- A concrete inbox where the producer's current slot is occupied but the
next one is free: the spinning write needs two loop iterations. -/
def x9_spin_sample : x9_inbox :=
  { read_idx := 0, write_idx := 0, sz := 2, msg_sz := 1,
    constant := x9_constant 2,
    msgs := [{ header := { slot_has_data := true, msg_written := true, shared := false },
               payload := [5] }, x9_empty_slot 1],
    name := [] }

/-- Counterexample to C2 as stated: on `x9_spin_sample` the spinning write
completes after two loop iterations and leaves the producer counter advanced
by two, not by exactly one — each failed CAS iteration draws a fresh ticket
(the fetch-and-add is inside the retry loop) and moves to the next slot. -/
theorem x9_write_to_inbox_spin_counterexample :
    ((x9_write_to_inbox_spin 2 x9_spin_sample 1 [7]).map (fun p => p.1.write_idx) ≠
      some (x9_spin_sample.write_idx + 1)) ∧
    ((x9_write_to_inbox_spin 2 x9_spin_sample 1 [7]).map (fun p => p.1.write_idx) =
      some (x9_spin_sample.write_idx + 2)) := by
  decide

/-- C2 (amended): each loop iteration of the spinning single-producer write
performs exactly one unconditional fetch-and-add of the producer counter P
and targets the slot determined by that iteration's ticket; a call that
completes after `n` iterations therefore advances P by exactly `n`, with
`n ≥ 1` (one per CAS attempt, the last of which succeeded). -/
theorem x9_write_to_inbox_spin_ticket_count (fuel : Nat) (ibx : x9_inbox)
    (msg_sz : Nat) (msg : List Nat) (ibx2 : x9_inbox) (n : Nat)
    (h : x9_write_to_inbox_spin fuel ibx msg_sz msg = some (ibx2, n)) :
    ibx2.write_idx = ibx.write_idx + n ∧ 1 ≤ n ∧ n ≤ fuel := by
  induction fuel generalizing ibx ibx2 n with
  | zero => simp [x9_write_to_inbox_spin] at h
  | succ fuel ih =>
    rw [x9_write_to_inbox_spin] at h
    split at h
    · exact absurd h (by simp)
    · split at h
      · have he := Option.some.inj h
        rw [Prod.mk.injEq] at he
        obtain ⟨h1, h2⟩ := he
        subst h2
        have hw : ibx2.write_idx = ibx.write_idx + 1 := by rw [← h1]
        exact ⟨hw, Nat.le_refl 1, by omega⟩
      · split at h
        · exact absurd h (by simp)
        · next ibx' n' hr =>
            have he := Option.some.inj h
            rw [Prod.mk.injEq] at he
            obtain ⟨h1, h2⟩ := he
            subst h1
            obtain ⟨g1, g2, g3⟩ := ih _ _ _ hr
            simp only at g1
            omega

/-- Witness for C2 (amended): one successful iteration on a fresh inbox
advances P by exactly that iteration count (one). -/
theorem x9_write_to_inbox_spin_ticket_count_witness :
    ({ read_idx := 0, write_idx := 1, sz := 2, msg_sz := 1,
       constant := x9_constant 2,
       msgs := [{ header := { slot_has_data := true, msg_written := true, shared := false },
                  payload := [7] }, x9_empty_slot 1],
       name := [] } : x9_inbox).write_idx = (x9_fresh_inbox 2 [] 1).write_idx + 1 ∧
    1 ≤ 1 ∧ 1 ≤ 1 :=
  x9_write_to_inbox_spin_ticket_count 1 (x9_fresh_inbox 2 [] 1) 1 [7] _ 1 (by decide)

end X9

namespace X9

/-- Counterexample to C8 as stated: an empty name is accepted —
`x9_create_inbox` never inspects the name, so with a legal capacity and
successful allocations it returns a valid inbox, not a sentinel. -/
theorem x9_create_inbox_empty_name_counterexample :
    ¬ (x9_create_inbox 4 [] 8 true true true = none) ∧
    x9_inbox_is_valid (x9_create_inbox 4 [] 8 true true true) = true := by
  decide

/-- C8 (amended): `x9_create_inbox` returns the NULL sentinel exactly when
the capacity is zero or odd or one of the three allocations fails; the name
is never validated (an empty name is accepted), and in every other case the
returned inbox is the fully initialised fresh inbox. -/
theorem x9_create_inbox_spec (sz : Nat) (name : List Nat) (msg_sz : Nat)
    (a1 a2 a3 : Bool) :
    (x9_create_inbox sz name msg_sz a1 a2 a3 = none ↔
      sz = 0 ∨ sz % 2 = 1 ∨ a1 = false ∨ a2 = false ∨ a3 = false) ∧
    (∀ ibx, x9_create_inbox sz name msg_sz a1 a2 a3 = some ibx →
      ibx = x9_fresh_inbox sz name msg_sz) := by
  by_cases h1 : 0 < sz ∧ sz % 2 = 0
  · obtain ⟨hp, he⟩ := h1
    have hz : ¬ sz = 0 := by omega
    have ho : ¬ sz % 2 = 1 := by omega
    cases a1 <;> cases a2 <;> cases a3 <;>
      simp [x9_create_inbox, hp, he, hz, ho]
  · have hnone : x9_create_inbox sz name msg_sz a1 a2 a3 = none := by
      unfold x9_create_inbox
      rw [if_pos h1]
    have hd : sz = 0 ∨ sz % 2 = 1 := by omega
    refine ⟨⟨fun _ => ?_, fun _ => hnone⟩,
      fun ibx hibx => absurd (hnone ▸ hibx) (by simp)⟩
    rcases hd with h | h
    · exact Or.inl h
    · exact Or.inr (Or.inl h)

/-- Witness for C8 (amended): zero capacity is rejected, and a legal
capacity with successful allocations yields exactly the fresh inbox. -/
theorem x9_create_inbox_spec_witness :
    x9_create_inbox 0 [] 1 true true true = none ∧
    x9_fresh_inbox 2 [3] 1 = x9_fresh_inbox 2 [3] 1 :=
  ⟨(x9_create_inbox_spec 0 [] 1 true true true).1.mpr (Or.inl rfl),
   (x9_create_inbox_spec 2 [3] 1 true true true).2 (x9_fresh_inbox 2 [3] 1) (by decide)⟩

/-- Counterexample to C9 as stated: a NULL inbox reference is accepted —
`x9_create_node` never checks its inbox arguments for validity, so a node
whose single inbox is NULL is created and reported valid. -/
theorem x9_create_node_null_inbox_counterexample :
    ¬ (x9_create_node [1] [none] true true true = none) ∧
    x9_node_is_valid (x9_create_node [1] [none] true true true) = true := by
  decide

/-- C9 (amended): `x9_create_node` returns the NULL sentinel exactly when
the inbox count is zero, an allocation fails, or two arguments are equal as
pointers (which rejects duplicate references, including two NULLs); a
single NULL or otherwise invalid inbox is NOT rejected.  On success the
node holds the n inbox references in argument order. -/
theorem x9_create_node_spec (name : List Nat) (inboxes : List (Option Nat))
    (a1 a2 a3 : Bool) :
    (x9_create_node name inboxes a1 a2 a3 = none ↔
      inboxes.length = 0 ∨ a1 = false ∨ a2 = false ∨ a3 = false ∨
        x9_has_dup inboxes = true) ∧
    (∀ nd, x9_create_node name inboxes a1 a2 a3 = some nd →
      nd.inboxes = inboxes ∧ nd.n_inboxes = inboxes.length ∧ nd.name = name) := by
  by_cases hL : inboxes.length = 0 <;>
    by_cases hdup : x9_has_dup inboxes = true <;>
      cases a1 <;> cases a2 <;> cases a3 <;>
        simp [x9_create_node, hL, hdup]

/-- Witness for C9 (amended): duplicate references are rejected, and a
valid argument list is stored in order. -/
theorem x9_create_node_spec_witness :
    x9_create_node [1] [some 3, some 3] true true true = none ∧
    ({ inboxes := [some 1, some 2], n_inboxes := 2, name := [1] } : x9_node).inboxes
      = [some 1, some 2] :=
  ⟨(x9_create_node_spec [1] [some 3, some 3] true true true).1.mpr
      (Or.inr (Or.inr (Or.inr (Or.inr (by decide))))),
   ((x9_create_node_spec [1] [some 1, some 2] true true true).2 _ (by decide)).1⟩

end X9

namespace X9

/-- Counterexample to C3 as stated: for the legal power-of-two capacity
C = 2 the stored constant is `2^63 = ⌊2^64/2⌋`, not `⌊2^64/2⌋ + 1`. -/
theorem x9_constant_pow2_counterexample :
    0 < 2 ∧ 2 % 2 = 0 ∧ x9_constant 2 ≠ 2 ^ 64 / 2 + 1 := by
  decide

/-- C3 (amended): the stored reciprocal constant is `⌈2^64 / C⌉`, computed
as `⌊(2^64 - 1) / C⌋ + 1`: it equals `⌊2^64/C⌋ + 1` exactly when C does not
divide `2^64`, and `⌊2^64/C⌋` when C divides `2^64` (in particular for
every power of two). -/
theorem x9_constant_characterization (sz : Nat) (h : 0 < sz) :
    (2 ^ 64 % sz ≠ 0 → x9_constant sz = 2 ^ 64 / sz + 1) ∧
    (2 ^ 64 % sz = 0 → x9_constant sz = 2 ^ 64 / sz) := by
  have hdm : sz * (2 ^ 64 / sz) + 2 ^ 64 % sz = 2 ^ 64 := Nat.div_add_mod _ _
  have hmlt : 2 ^ 64 % sz < sz := Nat.mod_lt _ h
  constructor
  · intro hne
    have hq : (2 ^ 64 - 1) / sz = 2 ^ 64 / sz := by
      apply Nat.div_eq_of_lt_le
      · rw [Nat.mul_comm]
        omega
      · rw [Nat.add_mul, Nat.one_mul, Nat.mul_comm]
        omega
    unfold x9_constant U64
    rw [hq]
  · intro hz
    have hqpos : 0 < 2 ^ 64 / sz := by
      rcases Nat.eq_zero_or_pos (2 ^ 64 / sz) with h0 | h0
      · rw [h0] at hdm
        omega
      · exact h0
    have hq : (2 ^ 64 - 1) / sz = 2 ^ 64 / sz - 1 := by
      apply Nat.div_eq_of_lt_le
      · rw [Nat.sub_one_mul, Nat.mul_comm]
        omega
      · have e : 2 ^ 64 / sz - 1 + 1 = 2 ^ 64 / sz := by omega
        rw [e, Nat.mul_comm]
        omega
    unfold x9_constant U64
    rw [hq]
    omega

/-- Witness for C3 (amended) at concrete capacities: C = 6 does not divide
`2^64` and gets `⌊2^64/6⌋ + 1`; C = 2 divides `2^64` and gets `2^63`. -/
theorem x9_constant_characterization_witness :
    x9_constant 6 = 2 ^ 64 / 6 + 1 ∧ x9_constant 2 = 2 ^ 64 / 2 :=
  ⟨(x9_constant_characterization 6 (by decide)).1 (by decide),
   (x9_constant_characterization 2 (by decide)).2 (by decide)⟩

end X9

namespace X9

/-- Counterexample to C1 as stated: for the legal capacity C = 6 and the
64-bit counter c = 15656581194752157074 the fast-modulo computation yields
3, while c mod 6 = 2 — the 64-bit reciprocal constant is too short for the
computation to be exact over the whole 64-bit counter range. -/
theorem x9_fastmod_counterexample :
    0 < 6 ∧ 6 % 2 = 0 ∧ 15656581194752157074 < U64 ∧
    x9_fastmod (x9_constant 6) 6 15656581194752157074 ≠
      15656581194752157074 % 6 := by
  decide

/-- The stored constant is the ceiling of `2^64 / sz`:
`2^64 ≤ x9_constant sz * sz < 2^64 + sz`. -/
theorem x9_constant_mul_bounds (sz : Nat) (h : 0 < sz) :
    U64 ≤ x9_constant sz * sz ∧ x9_constant sz * sz < U64 + sz := by
  have hdm : sz * ((U64 - 1) / sz) + (U64 - 1) % sz = U64 - 1 := Nat.div_add_mod _ _
  have hmlt : (U64 - 1) % sz < sz := Nat.mod_lt _ h
  have hU : 0 < U64 := by unfold U64; positivity
  unfold x9_constant
  rw [Nat.add_mul, Nat.one_mul, Nat.mul_comm]
  omega

/-- C1 (amended): with the constant `K = ⌈2^64/C⌉` stored by
`x9_create_inbox`, the fast-modulo computation returns exactly `c mod C`
for every capacity `C > 0` and every counter `c` with
`(K·C − 2^64)·c < 2^64` — in particular for all 64-bit `c` whenever C
divides `2^64` (e.g. every power of two), since then `K·C = 2^64`. -/
theorem x9_fastmod_correct (sz c : Nat) (hsz : 0 < sz) (_hc : c < U64)
    (hslack : (x9_constant sz * sz - U64) * c < U64) :
    x9_fastmod (x9_constant sz) sz c = c % sz := by
  obtain ⟨hlo, hhi⟩ := x9_constant_mul_bounds sz hsz
  set K := x9_constant sz with hK
  set a := K * sz - U64 with ha
  have hKsz : K * sz = U64 + a := by omega
  have halt : a < sz := by omega
  have hU : 0 < U64 := by unfold U64; positivity
  -- decompose the counter
  have hdm : sz * (c / sz) + c % sz = c := Nat.div_add_mod _ _
  have hrlt : c % sz < sz := Nat.mod_lt _ hsz
  set q := c / sz with hq
  set r := c % sz with hr
  -- K * c = q * U64 + (a * q + K * r)
  have key : K * c = q * U64 + (a * q + K * r) := by
    calc K * c = K * (sz * q + r) := by rw [hdm]
    _ = (K * sz) * q + K * r := by ring
    _ = (U64 + a) * q + K * r := by rw [hKsz]
    _ = q * U64 + (a * q + K * r) := by ring
  -- (a * q + K * r) * sz = r * U64 + a * c
  have key2 : (a * q + K * r) * sz = r * U64 + a * c := by
    calc (a * q + K * r) * sz = (K * sz) * r + a * (sz * q) := by ring
    _ = (U64 + a) * r + a * (sz * q) := by rw [hKsz]
    _ = r * U64 + a * (sz * q + r) := by ring
    _ = r * U64 + a * c := by rw [hdm]
  -- the middle term does not wrap: a * q + K * r < U64
  have hmid : a * q + K * r < U64 := by
    have h1 : (a * q + K * r) * sz < U64 * sz := by
      rw [key2]
      have hac : a * c < U64 := hslack
      have : r * U64 + a * c < (r + 1) * U64 := by
        rw [Nat.add_mul, Nat.one_mul]
        omega
      calc r * U64 + a * c < (r + 1) * U64 := this
      _ ≤ sz * U64 := by
        apply Nat.mul_le_mul_right
        omega
      _ = U64 * sz := Nat.mul_comm _ _
    exact Nat.lt_of_mul_lt_mul_right h1
  -- hence (K * c) % U64 = a * q + K * r
  have hmod : (K * c) % U64 = a * q + K * r := by
    rw [key, Nat.add_comm, Nat.add_mul_mod_self_right, Nat.mod_eq_of_lt hmid]
  -- and the final division yields r
  unfold x9_fastmod
  have hdiv : a * c / U64 = 0 := Nat.div_eq_of_lt hslack
  rw [hmod, key2, Nat.add_comm, Nat.add_mul_div_right _ _ hU, hdiv]
  omega


/-- Witness for C1 (amended) at a concrete input: capacity 6, counter 5. -/
theorem x9_fastmod_correct_witness :
    0 < 6 ∧ 5 < U64 ∧ (x9_constant 6 * 6 - U64) * 5 < U64 ∧
    x9_fastmod (x9_constant 6) 6 5 = 5 % 6 :=
  ⟨by decide, by decide, by decide,
   x9_fastmod_correct 6 5 (by decide) (by decide) (by decide)⟩

end X9

namespace X9

/-- Overwriting a list element that fails the predicate with one satisfying
it increases the `countP` by exactly one. -/
theorem countP_set_of_getElem? {α : Type} (p : α → Bool) :
    ∀ (l : List α) (i : Nat) (a b : α), l[i]? = some a → p a = false → p b = true →
      (l.set i b).countP p = l.countP p + 1 := by
  intro l
  induction l with
  | nil => intro i a b hm _ _; simp at hm
  | cons x xs ih =>
    intro i a b hm hpa hpb
    cases i with
    | zero =>
      simp only [List.getElem?_cons_zero, Option.some.injEq] at hm
      subst hm
      simp [List.set, List.countP_cons, hpa, hpb]
    | succ i =>
      simp only [List.getElem?_cons_succ] at hm
      simp [List.set, List.countP_cons, ih i a b hm hpa hpb]
      omega

/-- `x9_write_to_inbox` never changes the immutable fields, the consumer
counter, or the number of slots. -/
theorem x9_write_to_inbox_frame (ibx : x9_inbox) (msg_sz : Nat) (msg : List Nat) :
    (x9_write_to_inbox ibx msg_sz msg).2.sz = ibx.sz ∧
    (x9_write_to_inbox ibx msg_sz msg).2.msg_sz = ibx.msg_sz ∧
    (x9_write_to_inbox ibx msg_sz msg).2.constant = ibx.constant ∧
    (x9_write_to_inbox ibx msg_sz msg).2.read_idx = ibx.read_idx ∧
    (x9_write_to_inbox ibx msg_sz msg).2.msgs.length = ibx.msgs.length := by
  unfold x9_write_to_inbox
  rcases hm : ibx.msgs[x9_load_idx ibx false]? with _ | slot
  · simp [hm]
  · simp only [hm]
    by_cases hd : slot.header.slot_has_data = false
    · simp [hd]
    · simp [hd]

/-- A successful non-blocking write raises the occupied count by one; a
failed one leaves the state untouched. -/
theorem x9_write_to_inbox_occ (ibx : x9_inbox) (msg_sz : Nat) (msg : List Nat) :
    ((x9_write_to_inbox ibx msg_sz msg).1 = true →
      x9_occupied_count (x9_write_to_inbox ibx msg_sz msg).2 =
        x9_occupied_count ibx + 1) ∧
    ((x9_write_to_inbox ibx msg_sz msg).1 = false →
      (x9_write_to_inbox ibx msg_sz msg).2 = ibx) := by
  refine ⟨?_, fun h => (x9_write_to_inbox_fail_frame ibx msg_sz msg h).1⟩
  intro h
  unfold x9_write_to_inbox at h ⊢
  rcases hm : ibx.msgs[x9_load_idx ibx false]? with _ | slot
  · simp [hm] at h
  · simp only [hm] at h ⊢
    by_cases hd : slot.header.slot_has_data = false
    · simp only [hd, if_true, if_pos rfl]
      unfold x9_occupied_count
      rw [← List.countP_eq_length_filter, ← List.countP_eq_length_filter]
      exact countP_set_of_getElem? _ _ _ _ _ hm hd rfl
    · simp [hd] at h

/-- If every slot is occupied, the non-blocking write fails. -/
theorem x9_write_to_inbox_full_fails (ibx : x9_inbox) (msg_sz : Nat) (msg : List Nat)
    (hfull : x9_occupied_count ibx = ibx.msgs.length) :
    (x9_write_to_inbox ibx msg_sz msg).1 = false := by
  unfold x9_write_to_inbox
  rcases hm : ibx.msgs[x9_load_idx ibx false]? with _ | slot
  · simp [hm]
  · simp only [hm]
    have hall : ∀ s ∈ ibx.msgs, s.header.slot_has_data = true := by
      have := hfull
      unfold x9_occupied_count at this
      rw [← List.countP_eq_length_filter] at this
      exact fun s hs => List.countP_eq_length.mp this s hs
    have hmem : slot ∈ ibx.msgs := by
      obtain ⟨hlt, he⟩ := List.getElem?_eq_some.mp hm
      exact he ▸ List.getElem_mem hlt
    have hd : slot.header.slot_has_data = true := hall slot hmem
    simp [hd]

end X9

namespace X9

/-- A write sequence preserves the immutable fields, the consumer counter
and the slot count. -/
theorem x9_run_writes_frame (msg_sz : Nat) :
    ∀ (ms : List (List Nat)) (ibx : x9_inbox),
      (x9_run_writes ibx msg_sz ms).2.sz = ibx.sz ∧
      (x9_run_writes ibx msg_sz ms).2.msg_sz = ibx.msg_sz ∧
      (x9_run_writes ibx msg_sz ms).2.constant = ibx.constant ∧
      (x9_run_writes ibx msg_sz ms).2.read_idx = ibx.read_idx ∧
      (x9_run_writes ibx msg_sz ms).2.msgs.length = ibx.msgs.length := by
  intro ms
  induction ms with
  | nil => intro ibx; exact ⟨rfl, rfl, rfl, rfl, rfl⟩
  | cons m ms ih =>
    intro ibx
    obtain ⟨w1, w2, w3, w4, w5⟩ := x9_write_to_inbox_frame ibx msg_sz m
    obtain ⟨r1, r2, r3, r4, r5⟩ := ih (x9_write_to_inbox ibx msg_sz m).2
    exact ⟨by rw [x9_run_writes]; rw [r1, w1], by rw [x9_run_writes]; rw [r2, w2],
           by rw [x9_run_writes]; rw [r3, w3], by rw [x9_run_writes]; rw [r4, w4],
           by rw [x9_run_writes]; rw [r5, w5]⟩

/-- Across a write sequence the occupied count grows by exactly the number
of writes that returned true. -/
theorem x9_run_writes_occ (msg_sz : Nat) :
    ∀ (ms : List (List Nat)) (ibx : x9_inbox),
      x9_occupied_count (x9_run_writes ibx msg_sz ms).2 =
        x9_occupied_count ibx + (x9_run_writes ibx msg_sz ms).1.count true := by
  intro ms
  induction ms with
  | nil => intro ibx; simp [x9_run_writes]
  | cons m ms ih =>
    intro ibx
    rw [x9_run_writes]
    simp only [List.count_cons]
    rcases hb : (x9_write_to_inbox ibx msg_sz m).1 with _ | _
    · have hfix := ((x9_write_to_inbox_occ ibx msg_sz m).2 hb)
      rw [ih (x9_write_to_inbox ibx msg_sz m).2, hfix]
      simp
    · have hinc := ((x9_write_to_inbox_occ ibx msg_sz m).1 hb)
      rw [ih (x9_write_to_inbox ibx msg_sz m).2, hinc]
      simp
      omega

/-- C5: starting from any inbox whose slot array has its declared size, the
number of writes in a read-free sequence that return written, plus the
slots already occupied, never exceeds the capacity C; and once that sum
reaches C (in particular after C consecutive successful writes on a fresh
inbox) the next non-blocking write returns not-written. -/
theorem x9_capacity_bound (ibx : x9_inbox) (msg_sz : Nat) (ms : List (List Nat))
    (m : List Nat) (hlen : ibx.msgs.length = ibx.sz) :
    (x9_run_writes ibx msg_sz ms).1.count true + x9_occupied_count ibx ≤ ibx.sz ∧
    ((x9_run_writes ibx msg_sz ms).1.count true + x9_occupied_count ibx = ibx.sz →
      (x9_write_to_inbox (x9_run_writes ibx msg_sz ms).2 msg_sz m).1 = false) := by
  have hocc := x9_run_writes_occ msg_sz ms ibx
  have hframe := (x9_run_writes_frame msg_sz ms ibx).2.2.2.2
  have hle : x9_occupied_count (x9_run_writes ibx msg_sz ms).2 ≤ ibx.sz := by
    unfold x9_occupied_count
    rw [← List.countP_eq_length_filter, ← hlen, ← hframe]
    exact List.countP_le_length _
  constructor
  · omega
  · intro hfull
    apply x9_write_to_inbox_full_fails
    unfold x9_occupied_count at hocc hfull ⊢
    omega

/-- Witness for C5 at a concrete input: on a fresh inbox of capacity 2, two
writes succeed and the sum reaches the capacity, whereupon the next write
fails. -/
theorem x9_capacity_bound_witness :
    ((x9_run_writes (x9_fresh_inbox 2 [] 1) 1 [[1], [2]]).1.count true +
        x9_occupied_count (x9_fresh_inbox 2 [] 1) ≤ 2) ∧
    (x9_write_to_inbox (x9_run_writes (x9_fresh_inbox 2 [] 1) 1 [[1], [2]]).2 1 [9]).1
      = false := by
  have h := x9_capacity_bound (x9_fresh_inbox 2 [] 1) 1 [[1], [2]] [9] (by decide)
  exact ⟨h.1, h.2 (by decide)⟩

end X9

namespace X9

/-- Slot indices computed by the fast modulo are always within capacity. -/
theorem x9_load_idx_lt (ibx : x9_inbox) (b : Bool) (h : 0 < ibx.sz) :
    x9_load_idx ibx b < ibx.sz := by
  have hU : 0 < U64 := by unfold U64; positivity
  unfold x9_load_idx x9_fastmod
  set c := if b then ibx.read_idx else ibx.write_idx
  have hx : (ibx.constant * c) % U64 < U64 := Nat.mod_lt _ hU
  rw [Nat.div_lt_iff_lt_mul hU]
  calc ((ibx.constant * c) % U64) * ibx.sz
      < U64 * ibx.sz := by
        exact Nat.mul_lt_mul_of_lt_of_le hx (Nat.le_refl _) h
  _ = ibx.sz * U64 := Nat.mul_comm _ _

/-- The fast-modulo slot index only depends on the constant, the capacity
and the relevant counter. -/
theorem x9_load_idx_congr (ibx1 ibx2 : x9_inbox) (b : Bool)
    (h1 : ibx1.constant = ibx2.constant) (h2 : ibx1.sz = ibx2.sz)
    (h3 : ibx1.read_idx = ibx2.read_idx) (h4 : ibx1.write_idx = ibx2.write_idx) :
    x9_load_idx ibx1 b = x9_load_idx ibx2 b := by
  cases b <;> simp [x9_load_idx, h1, h2, h3, h4]

/-- Characterisation of a successful non-blocking write: the target slot
existed, was free, and the new state is exactly the old one with that slot
filled and the producer counter bumped. -/
theorem x9_write_to_inbox_success (ibx : x9_inbox) (msg_sz : Nat) (msg : List Nat)
    (h : (x9_write_to_inbox ibx msg_sz msg).1 = true) :
    ∃ st : x9_slot, ibx.msgs[x9_load_idx ibx false]? = some st ∧
      st.header.slot_has_data = false ∧
      (x9_write_to_inbox ibx msg_sz msg).2 =
        { ibx with
          write_idx := ibx.write_idx + 1,
          msgs := ibx.msgs.set (x9_load_idx ibx false)
            { header := { st.header with slot_has_data := true, msg_written := true },
              payload := msg.take msg_sz ++ st.payload.drop msg_sz } } := by
  unfold x9_write_to_inbox at h ⊢
  rcases hm : ibx.msgs[x9_load_idx ibx false]? with _ | st
  · simp [hm] at h
  · simp only [hm] at h ⊢
    by_cases hd : st.header.slot_has_data = false
    · exact ⟨st, rfl, hd, by simp [hd]⟩
    · simp [hd] at h

/-- The state produced by a successful `x9_read_from_inbox` on a consumable
slot: the slot's flags are cleared and the consumer counter is bumped. -/
def x9_read_commit (ibx : x9_inbox) (slot : x9_slot) : x9_inbox :=
  { ibx with
    read_idx := ibx.read_idx + 1,
    msgs := ibx.msgs.set (x9_load_idx ibx true)
      { slot with
        header := { slot.header with slot_has_data := false, msg_written := false } } }

/-- A read of a consumable slot succeeds and produces the commit state. -/
theorem x9_read_from_inbox_success (ibx : x9_inbox) (msg_sz : Nat) (out : List Nat)
    (slot : x9_slot) (hm : ibx.msgs[x9_load_idx ibx true]? = some slot)
    (hd : slot.header.slot_has_data = true) (hw : slot.header.msg_written = true) :
    x9_read_from_inbox ibx msg_sz out =
      (true, x9_read_commit ibx slot, slot.payload.take msg_sz ++ out.drop msg_sz) := by
  unfold x9_read_from_inbox x9_read_commit
  simp [hm, hd, hw]

end X9

namespace X9

/-- `x9_load_idx _ true` only depends on constant, capacity, and Q. -/
theorem x9_load_idx_true_congr (ibx1 ibx2 : x9_inbox)
    (h1 : ibx1.constant = ibx2.constant) (h2 : ibx1.sz = ibx2.sz)
    (h3 : ibx1.read_idx = ibx2.read_idx) :
    x9_load_idx ibx1 true = x9_load_idx ibx2 true := by
  simp [x9_load_idx, h1, h2, h3]

/-- `x9_load_idx _ false` only depends on constant, capacity, and P. -/
theorem x9_load_idx_false_congr (ibx1 ibx2 : x9_inbox)
    (h1 : ibx1.constant = ibx2.constant) (h2 : ibx1.sz = ibx2.sz)
    (h3 : ibx1.write_idx = ibx2.write_idx) :
    x9_load_idx ibx1 false = x9_load_idx ibx2 false := by
  simp [x9_load_idx, h1, h2, h3]

/-- Reading the pending slot commutes with any number of successful writes:
the slot a consumer is about to read is occupied, successful writes only
fill free slots, so after the writes the read still succeeds with the same
payload, and performing the read first does not change which writes succeed
nor the final state. -/
theorem x9_run_writes_read_comm (msg_sz : Nat) (out : List Nat) :
    ∀ (ms : List (List Nat)) (ibx : x9_inbox) (slot : x9_slot),
      0 < ibx.sz →
      ibx.msgs.length = ibx.sz →
      ibx.msgs[x9_load_idx ibx true]? = some slot →
      slot.header.slot_has_data = true →
      slot.header.msg_written = true →
      (x9_run_writes ibx msg_sz ms).1.all id = true →
      (x9_run_writes (x9_read_commit ibx slot) msg_sz ms).1 =
        (x9_run_writes ibx msg_sz ms).1 ∧
      x9_read_from_inbox (x9_run_writes ibx msg_sz ms).2 msg_sz out =
        (true, (x9_run_writes (x9_read_commit ibx slot) msg_sz ms).2,
          slot.payload.take msg_sz ++ out.drop msg_sz) := by
  intro ms
  induction ms with
  | nil =>
    intro ibx slot hsz hlen hm hd hw _
    exact ⟨rfl, x9_read_from_inbox_success ibx msg_sz out slot hm hd hw⟩
  | cons m ms ih =>
    intro ibx slot hsz hlen hm hd hw hall
    rw [x9_run_writes, List.all_cons] at hall
    simp only [Bool.and_eq_true, id] at hall
    obtain ⟨hb, hrest⟩ := hall
    obtain ⟨st, hmt, hstf, hwstate⟩ := x9_write_to_inbox_success ibx msg_sz m hb
    set t := x9_load_idx ibx false with ht
    set r := x9_load_idx ibx true with hr
    have htr : ¬ (t = r) := by
      intro he
      rw [he, hm] at hmt
      rw [← Option.some.inj hmt, hd] at hstf
      exact absurd hstf (by simp)
    -- facts about the post-write state
    have hwsz : (x9_write_to_inbox ibx msg_sz m).2.sz = ibx.sz := by rw [hwstate]
    have hwlen : (x9_write_to_inbox ibx msg_sz m).2.msgs.length =
        (x9_write_to_inbox ibx msg_sz m).2.sz := by
      rw [hwstate]
      simp only [List.length_set]
      exact hlen
    have hwr_idx : x9_load_idx (x9_write_to_inbox ibx msg_sz m).2 true = r := by
      rw [hwstate, hr]
      exact x9_load_idx_true_congr _ _ rfl rfl rfl
    have hwm : (x9_write_to_inbox ibx msg_sz m).2.msgs[r]? = some slot := by
      rw [hwstate]
      show (ibx.msgs.set t _)[r]? = some slot
      rw [List.getElem?_set_ne htr]
      exact hm
    obtain ⟨ihpat, ihread⟩ :=
      ih (x9_write_to_inbox ibx msg_sz m).2 slot (hwsz ▸ hsz) hwlen
        (by rw [hwr_idx]; exact hwm) hd hw hrest
    -- the commit state of ibx: write on it targets the same slot t
    have hrt : x9_load_idx (x9_read_commit ibx slot) false = t := by
      unfold x9_read_commit
      rw [ht]
      exact x9_load_idx_false_congr _ _ rfl rfl rfl
    have hrm : (x9_read_commit ibx slot).msgs[t]? = some st := by
      show (ibx.msgs.set (x9_load_idx ibx true) _)[t]? = some st
      rw [← hr, List.getElem?_set_ne (fun he => htr he.symm)]
      exact hmt
    -- writing to the commit state succeeds and lands in the commuted state
    have hkey : x9_write_to_inbox (x9_read_commit ibx slot) msg_sz m =
        (true, x9_read_commit (x9_write_to_inbox ibx msg_sz m).2 slot) := by
      unfold x9_read_commit at hrt hrm
      rw [hwstate]
      unfold x9_write_to_inbox x9_read_commit
      simp only [hrt, hrm, hstf]
      rw [if_pos trivial]
      show ((true,
        { read_idx := ibx.read_idx + 1, write_idx := ibx.write_idx + 1,
          sz := ibx.sz, msg_sz := ibx.msg_sz, constant := ibx.constant,
          msgs := (ibx.msgs.set r
            { slot with header := { slot.header with
                slot_has_data := false, msg_written := false } }).set t
            { header := { st.header with slot_has_data := true, msg_written := true },
              payload := m.take msg_sz ++ st.payload.drop msg_sz },
          name := ibx.name }) : Bool × x9_inbox) =
        (true,
        { read_idx := ibx.read_idx + 1, write_idx := ibx.write_idx + 1,
          sz := ibx.sz, msg_sz := ibx.msg_sz, constant := ibx.constant,
          msgs := (ibx.msgs.set t
            { header := { st.header with slot_has_data := true, msg_written := true },
              payload := m.take msg_sz ++ st.payload.drop msg_sz }).set r
            { slot with header := { slot.header with
                slot_has_data := false, msg_written := false } },
          name := ibx.name })
      rw [List.set_comm _ _ _ (fun he => htr he.symm)]
    constructor
    · rw [x9_run_writes, x9_run_writes]
      rw [hkey]
      simp only
      rw [ihpat, hb]
    · rw [x9_run_writes]
      simp only
      rw [ihread]
      rw [x9_run_writes]
      rw [hkey]

end X9

namespace X9

/-- From an aligned all-empty state (Q = P, every slot free), a run of
writes that all succeed followed by as many reads returns exactly the
written messages, in order. -/
theorem x9_fifo_aux (msg_sz : Nat) :
    ∀ (ms : List (List Nat)) (ibx : x9_inbox),
      0 < ibx.sz →
      ibx.msgs.length = ibx.sz →
      ibx.read_idx = ibx.write_idx →
      (∀ s ∈ ibx.msgs, s.header.slot_has_data = false) →
      (∀ m ∈ ms, m.length = msg_sz) →
      (x9_run_writes ibx msg_sz ms).1.all id = true →
      (x9_run_reads (x9_run_writes ibx msg_sz ms).2 msg_sz ms.length).1 =
        ms.map (fun m => (true, m)) := by
  intro ms
  induction ms with
  | nil => intro ibx _ _ _ _ _ _; rfl
  | cons m ms ih =>
    intro ibx hsz hlen hqp hfree hmlen hall
    rw [x9_run_writes, List.all_cons] at hall
    simp only [Bool.and_eq_true, id] at hall
    obtain ⟨hb, hrest⟩ := hall
    obtain ⟨st, hmt, hstf, hwstate⟩ := x9_write_to_inbox_success ibx msg_sz m hb
    set t := x9_load_idx ibx false with ht
    have htlt : t < ibx.msgs.length := by
      rw [hlen, ht]
      exact x9_load_idx_lt ibx false hsz
    have hrteq : x9_load_idx ibx true = t := by
      rw [ht]
      simp [x9_load_idx, hqp]
    set st2 : x9_slot :=
      { header := { st.header with slot_has_data := true, msg_written := true },
        payload := m.take msg_sz ++ st.payload.drop msg_sz } with hst2
    have hwsz : (x9_write_to_inbox ibx msg_sz m).2.sz = ibx.sz := by rw [hwstate]
    have hwlen : (x9_write_to_inbox ibx msg_sz m).2.msgs.length =
        (x9_write_to_inbox ibx msg_sz m).2.sz := by
      rw [hwstate]
      simp only [List.length_set]
      exact hlen
    have hwr_idx : x9_load_idx (x9_write_to_inbox ibx msg_sz m).2 true = t := by
      rw [hwstate]
      calc x9_load_idx _ true = x9_load_idx ibx true :=
            x9_load_idx_true_congr _ _ rfl rfl rfl
      _ = t := hrteq
    have hwm : (x9_write_to_inbox ibx msg_sz m).2.msgs[t]? = some st2 := by
      rw [hwstate]
      show (ibx.msgs.set t st2)[t]? = some st2
      exact List.getElem?_set_eq_of_lt st2 htlt
    obtain ⟨cpat, cread⟩ :=
      x9_run_writes_read_comm msg_sz (List.replicate msg_sz 0) ms
        (x9_write_to_inbox ibx msg_sz m).2 st2 (hwsz ▸ hsz) hwlen
        (by rw [hwr_idx]; exact hwm) rfl rfl hrest
    -- characterise the state after the first read
    have hcommit_msgs : (x9_read_commit (x9_write_to_inbox ibx msg_sz m).2 st2).msgs =
        ibx.msgs.set t
          { st2 with header := { st2.header with
              slot_has_data := false, msg_written := false } } := by
      unfold x9_read_commit
      rw [hwr_idx, hwstate]
      show (ibx.msgs.set t st2).set t _ = _
      rw [List.set_set]
    have hc_r : (x9_read_commit (x9_write_to_inbox ibx msg_sz m).2 st2).read_idx =
        ibx.read_idx + 1 := by
      unfold x9_read_commit
      rw [hwstate]
    have hc_w : (x9_read_commit (x9_write_to_inbox ibx msg_sz m).2 st2).write_idx =
        ibx.write_idx + 1 := by
      unfold x9_read_commit
      rw [hwstate]
    have hc_sz : (x9_read_commit (x9_write_to_inbox ibx msg_sz m).2 st2).sz = ibx.sz := by
      unfold x9_read_commit
      rw [hwstate]
    -- the buffer returned by the first read is exactly m
    have hmlen1 : m.length = msg_sz := hmlen m (List.mem_cons_self m ms)
    have hbuf : st2.payload.take msg_sz ++ (List.replicate msg_sz 0).drop msg_sz = m := by
      rw [hst2]
      show (m.take msg_sz ++ st.payload.drop msg_sz).take msg_sz ++ _ = m
      rw [← hmlen1, List.take_length, List.take_left]
      simp [hmlen1]
    -- unfold one write and one read
    rw [x9_run_writes]
    simp only [List.length_cons, List.map_cons]
    rw [x9_run_reads]
    simp only
    rw [cread]
    simp only
    rw [hbuf]
    -- the tail follows from the induction hypothesis
    have htail := ih (x9_read_commit (x9_write_to_inbox ibx msg_sz m).2 st2)
      (by rw [hc_sz]; exact hsz)
      (by rw [hcommit_msgs, hc_sz]; simp only [List.length_set]; exact hlen)
      (by rw [hc_r, hc_w, hqp])
      (by
        rw [hcommit_msgs]
        intro s hs
        rcases List.mem_or_eq_of_mem_set hs with hmem | he
        · exact hfree s hmem
        · rw [he])
      (fun m' hm' => hmlen m' (List.mem_cons_of_mem m hm'))
      (by rw [cpat]; exact hrest)
    rw [htail]

end X9

namespace X9

/-- C4: on a freshly created inbox, if a producer performs n writes via
`x9_write_to_inbox` that all return written and a consumer then performs n
reads via `x9_read_from_inbox` (sequentially), every read returns read and
the sequence of payloads read equals the sequence written, byte for byte,
in the same order. -/
theorem x9_fifo (sz msg_sz : Nat) (name : List Nat) (ms : List (List Nat))
    (ibx : x9_inbox)
    (hc : x9_create_inbox sz name msg_sz true true true = some ibx)
    (hm : ∀ m ∈ ms, m.length = msg_sz)
    (hall : (x9_run_writes ibx msg_sz ms).1.all id = true) :
    (x9_run_reads (x9_run_writes ibx msg_sz ms).2 msg_sz ms.length).1 =
      ms.map (fun m => (true, m)) := by
  unfold x9_create_inbox at hc
  have h1 : 0 < sz ∧ sz % 2 = 0 := by
    by_contra hn
    rw [if_pos hn] at hc
    exact absurd hc (by simp)
  rw [if_neg (not_not_intro h1)] at hc
  simp only [Bool.true_eq_false, if_false, ite_false] at hc
  have hfresh : ibx = x9_fresh_inbox sz name msg_sz := (Option.some.inj hc).symm
  subst hfresh
  apply x9_fifo_aux msg_sz ms (x9_fresh_inbox sz name msg_sz) h1.1
  · show (List.replicate sz (x9_empty_slot msg_sz)).length = sz
    exact List.length_replicate sz _
  · rfl
  · intro s hs
    show s.header.slot_has_data = false
    rw [List.eq_of_mem_replicate hs]
    rfl
  · exact hm
  · exact hall

/-- Witness for C4 at a concrete input: two one-byte messages written to a
fresh capacity-2 inbox come back in order. -/
theorem x9_fifo_witness :
    (x9_run_reads (x9_run_writes (x9_fresh_inbox 2 [7] 1) 1 [[3], [4]]).2 1 2).1 =
      [(true, [3]), (true, [4])] :=
  x9_fifo 2 1 [7] [[3], [4]] (x9_fresh_inbox 2 [7] 1) (by decide) (by decide) (by decide)

end X9
